import Mathlib

/-!
Verification of the opendrop analysis-aggregation and session-lifecycle
logic: a shallow embedding of `opendrop/app/ift/results/model.py`
(`IFTResultsModel`) and `opendrop/app/conan/conan.py` (`Context`,
`ConanRootPresenter`), with theorems settling the specification claims.
-/

namespace OpendropIFT

/-- Embedding of `IFTResultsModel.Status` (model.py): the aggregate
fitting status enum. -/
inductive Status where
  | NO_ANALYSES
  | FITTING
  | FINISHED
  | CANCELLED
deriving DecidableEq, Repr

/-- One tracked `IFTDropAnalysis` as seen by `IFTResultsModel`: the four
bindable fields the aggregation getters read (`bn_is_done`,
`bn_is_cancelled`, `bn_time_start`, `bn_time_est_complete`).  Times are
modelled as rationals; `math.nan` is represented separately by
`RFloat.nan` in aggregate results. -/
structure Analysis where
  is_done : Bool
  is_cancelled : Bool
  time_start : ℚ
  time_est_complete : ℚ
deriving DecidableEq, Repr

/-- A Python float that is either `math.nan` or a numeric value
(modelled as a rational). -/
inductive RFloat where
  | nan
  | val (q : ℚ)
deriving DecidableEq, Repr

/-- Embedding of `IFTResultsModel._get_fitting_status` (model.py lines
136-155): NO_ANALYSES on the empty collection, CANCELLED if any analysis
is cancelled, FINISHED if every analysis is done and not cancelled, else
FITTING. -/
def get_fitting_status (analyses : List Analysis) : Status :=
  if analyses.length = 0 then
    Status.NO_ANALYSES
  else
    let is_cancelled := analyses.any (fun analysis => analysis.is_cancelled)
    if is_cancelled then
      Status.CANCELLED
    else
      let is_finished :=
        analyses.all (fun analysis => analysis.is_done && !analysis.is_cancelled)
      if is_finished then
        Status.FINISHED
      else
        Status.FITTING

/-- Embedding of `IFTResultsModel._get_analyses_time_start` (model.py
lines 157-167): `math.nan` on the empty collection, otherwise the
minimum of the member `bn_time_start` values. -/
def get_analyses_time_start (analyses : List Analysis) : RFloat :=
  match analyses with
  | [] => RFloat.nan
  | a :: rest =>
      RFloat.val ((rest.map (fun analysis => analysis.time_start)).foldl min a.time_start)

/-- Embedding of `IFTResultsModel._get_analyses_time_est_complete`
(model.py lines 169-179): `math.nan` on the empty collection, otherwise
the maximum of the member `bn_time_est_complete` values. -/
def get_analyses_time_est_complete (analyses : List Analysis) : RFloat :=
  match analyses with
  | [] => RFloat.nan
  | a :: rest =>
      RFloat.val
        ((rest.map (fun analysis => analysis.time_est_complete)).foldl max a.time_est_complete)

/-- Embedding of `IFTResultsModel._get_analyses_completion_progress`
(model.py lines 181-194): `math.nan` on the empty collection, otherwise
the count of done analyses divided by the total count. -/
def get_analyses_completion_progress (analyses : List Analysis) : RFloat :=
  if analyses.length = 0 then
    RFloat.nan
  else
    let num_completed := (analyses.filter (fun analysis => analysis.is_done)).length
    RFloat.val ((num_completed : ℚ) / (analyses.length : ℚ))

/-- Embedding of `IFTResultsModel._track_analysis` /
`IFTResultsModel._untrack_analysis` bookkeeping state (model.py lines
97-134): the `_tracked_analyses` list, the `_analysis_untrack_tasks`
mapping (an association list from analysis id to the recorded disconnect
tasks, each disconnect identified by the id of the connection it
removes), the set of live event connections, and a counter supplying
fresh connection ids.  Analyses are identified by numeric ids. -/
structure TrackState where
  tracked : List Nat
  untrack_tasks : List (Nat × List Nat)
  connections : List Nat
  next_conn : Nat
deriving DecidableEq, Repr

/-- Embedding of `IFTResultsModel._track_analysis` (model.py lines
97-126): connecting the four per-member change subscriptions (status,
is-done, start time, estimated completion time handlers) yields four
fresh connections; their `disconnect` closures are recorded as the
untrack tasks for this analysis, and the analysis is appended to the
tracked list. -/
def track_analysis (s : TrackState) (aid : Nat) : TrackState :=
  let new_conns := [s.next_conn, s.next_conn + 1, s.next_conn + 2, s.next_conn + 3]
  { tracked := s.tracked ++ [aid]
    untrack_tasks := s.untrack_tasks ++ [(aid, new_conns)]
    connections := s.connections ++ new_conns
    next_conn := s.next_conn + 4 }

/-- Embedding of `IFTResultsModel._untrack_analysis` (model.py lines
128-134): look up the untrack tasks recorded for the analysis, run each
(each disconnect removes its connection), then remove the analysis from
the tracked list and delete its entry.  In Python a missing key raises
`KeyError`; untracking is only ever invoked for tracked analyses, so the
`none` branch is unreachable there and modelled as a no-op. -/
def untrack_analysis (s : TrackState) (aid : Nat) : TrackState :=
  match s.untrack_tasks.lookup aid with
  | none => s
  | some tasks =>
      { tracked := s.tracked.erase aid
        untrack_tasks := s.untrack_tasks.filter (fun p => p.1 != aid)
        connections := s.connections.filter (fun c => decide (c ∉ tasks))
        next_conn := s.next_conn }

/-- Freshness/uniqueness conditions holding whenever `aid` is not
currently tracked: it is absent from the tracked list and the untrack
map, and every live connection id was allocated below the counter. -/
def TrackState.wf_fresh (s : TrackState) (aid : Nat) : Prop :=
  aid ∉ s.tracked ∧ (∀ p ∈ s.untrack_tasks, p.1 ≠ aid) ∧
    (∀ c ∈ s.connections, c < s.next_conn)

end OpendropIFT

namespace OpendropConan

/-- Modelled from the spec: `ConanAnalysis` (outside this excerpt) as
seen by the session — a single analysis in states fitting / done /
cancelled, captured by its done and cancelled flags. -/
structure ConanAnalysis where
  done : Bool
  cancelled : Bool
deriving DecidableEq, Repr

/-- Modelled from the spec: `ConanAnalysis.cancel` (outside this
excerpt) performs the transition fitting→cancelled; an analysis that is
already done or cancelled is left unchanged. -/
def ConanAnalysis.cancel (a : ConanAnalysis) : ConanAnalysis :=
  if a.done || a.cancelled then a else { a with cancelled := true }

/-- Embedding of `Context` (conan.py lines 91-176): the current analysis
(`_current_analysis_value`, at most one), the saved flag
(`_current_analysis_saved`), and the `bn_current_analysis_done` bindable
which mirrors the done flag of the current analysis while one is bound and
retains its last value otherwise. -/
structure Context where
  current : Option ConanAnalysis
  saved : Bool
  bn_done : Bool
deriving DecidableEq, Repr

/-- The `_current_analysis` property setter (conan.py): unbind the old
analysis, store the new one, and when it is not `None` bind
`bn_current_analysis_done` from its done flag. -/
def Context.set_current (s : Context) (a : Option ConanAnalysis) : Context :=
  match a with
  | none => { s with current := none }
  | some analysis => { s with current := some analysis, bn_done := analysis.done }

/-- Embedding of `Context.new_analysis` (conan.py lines 104-110): a
fresh analysis (fitting: not done, not cancelled — modelled from the
spec, `ConanAnalysis.__init__` is outside this excerpt) becomes current
and the saved flag is reset. -/
def Context.new_analysis (s : Context) : Context :=
  let s1 := s.set_current (some { done := false, cancelled := false })
  { s1 with saved := false }

/-- Embedding of `Context.cancel_current_analysis` (conan.py lines
118-123): return (a no-op) when no current analysis exists, otherwise
cancel the current analysis. -/
def Context.cancel_current_analysis (s : Context) : Context :=
  match s.current with
  | none => s
  | some analysis => { s with current := some analysis.cancel }

/-- Embedding of `Context.clear_current_analysis` (conan.py lines
112-116): cancel the current analysis, then unset it and reset the
saved flag. -/
def Context.clear_current_analysis (s : Context) : Context :=
  let s1 := s.cancel_current_analysis
  let s2 := s1.set_current none
  { s2 with saved := false }

/-- Embedding of `Context.save_current_analysis` (conan.py lines
125-133): raise `ValueError` when no current analysis exists or it is
not done (leaving the state untouched); otherwise save the drops (an
external side effect) and set the saved flag.  The raised message, if
any, is returned alongside the resulting state. -/
def Context.save_current_analysis (s : Context) : Option String × Context :=
  match s.current with
  | none => (some "Cannot save, no current analysis exists", s)
  | some analysis =>
      if !analysis.done then
        (some "Cannot save, current analysis is not done", s)
      else
        (none, { s with saved := true })

/-- `Context.current_analysis_exists` (conan.py lines 163-165). -/
def Context.current_analysis_exists (s : Context) : Bool :=
  s.current.isSome

/-- `Context.current_analysis_done` (conan.py lines 171-173): reads the
`bn_current_analysis_done` bindable. -/
def Context.current_analysis_done (s : Context) : Bool :=
  s.bn_done

/-- The session invariant: the saved flag is set only while a current
analysis exists. -/
def Context.inv (s : Context) : Prop :=
  s.saved = true → s.current.isSome = true

/-- Outcome of an awaited asyncio future as observed by a done-callback:
either the task was cancelled, or it completed with a result. -/
inductive FutOutcome (α : Type) where
  | cancelled
  | result (v : α)
deriving DecidableEq, Repr

/-- Embedding of the `result` done-callback inside
`ConanRootPresenter._user_wants_to_cancel_analysis` (conan.py lines
304-311), restricted to its effect on the session: if the confirmation
task was cancelled or the user answered no, return without touching the
session; otherwise cancel the current analysis. -/
def cancel_analysis_done_callback (fut : FutOutcome Bool) (ctx : Context) : Context :=
  match fut with
  | FutOutcome.cancelled => ctx
  | FutOutcome.result false => ctx
  | FutOutcome.result true => ctx.cancel_current_analysis

/-- Embedding of the `do_it` callback inside
`ConanRootPresenter._user_wants_to_exit_analysis` (conan.py lines
313-327): when invoked with a future that was cancelled or resolved to
`False`, return without touching the session; otherwise (including the
direct call with no future, used when the analysis is already saved)
clear the current analysis. -/
def exit_analysis_do_it (fut : Option (FutOutcome Bool)) (ctx : Context) : Context :=
  match fut with
  | some FutOutcome.cancelled => ctx
  | some (FutOutcome.result false) => ctx
  | _ => ctx.clear_current_analysis

/-- Embedding of the `do_it` callback inside
`ConanRootPresenter._user_wants_to_save_analysis` (conan.py lines
329-344): if the save-options task was cancelled, or returned no
options, return without touching the session; otherwise save the
current analysis with the chosen options (the options object itself is
irrelevant to the session state and modelled as `Unit`). -/
def save_analysis_do_it (fut : FutOutcome (Option Unit)) (ctx : Context) :
    Option String × Context :=
  match fut with
  | FutOutcome.cancelled => (none, ctx)
  | FutOutcome.result none => (none, ctx)
  | FutOutcome.result (some _) => ctx.save_current_analysis

/-- The pending cancel-confirmation asyncio task: only its cancelled
flag matters to the flow. -/
structure ConfirmTask where
  cancelled : Bool
deriving DecidableEq, Repr

/-- State of the cancel-analysis interaction in
`ConanRootPresenter._user_wants_to_cancel_analysis` (conan.py lines
293-311): the session context, the pending confirmation task created by
`_ask_user_confirm_cancel_analysis` (if any), and whether the
early-termination connection on `bn_current_analysis_done` is
connected. -/
structure CancelFlow where
  ctx : Context
  confirm : Option ConfirmTask
  early_term_connected : Bool
deriving DecidableEq, Repr

/-- Embedding of `ConanRootPresenter._user_wants_to_cancel_analysis`
(conan.py lines 293-311) up to its suspend point: when no current
analysis exists or the current analysis is done, return immediately;
otherwise create the confirmation task and connect the
early-termination handler. -/
def user_wants_to_cancel_analysis (s : CancelFlow) : CancelFlow :=
  if !s.ctx.current_analysis_exists || s.ctx.current_analysis_done then
    s
  else
    { s with confirm := some { cancelled := false }, early_term_connected := true }

/-- The current analysis finishes naturally: its done flag becomes true,
the bound `bn_current_analysis_done` updates, and its change handler —
the `IfThen(cond=bn_current_analysis_done.get,
then=confirm_cancel_analysis.cancel)` early-termination connection
(conan.py lines 299-302) — runs while connected, cancelling the pending
confirmation task since the condition now holds. -/
def analysis_finishes (s : CancelFlow) : CancelFlow :=
  match s.ctx.current with
  | none => s
  | some a =>
      let ctx1 : Context :=
        { s.ctx with current := some { a with done := true }, bn_done := true }
      if s.early_term_connected && ctx1.bn_done then
        { ctx := ctx1
          confirm := s.confirm.map (fun t => { t with cancelled := true })
          early_term_connected := s.early_term_connected }
      else
        { s with ctx := ctx1 }

/-- The pending confirmation task completes and its `result`
done-callback (conan.py lines 304-311) runs: a cancelled task is
observed as a cancelled future, otherwise the future carries the
dialog response; the callback disconnects the early-termination
connection and then proceeds as `cancel_analysis_done_callback`. -/
def run_confirm_done_callback (s : CancelFlow) (userResponse : Bool) : CancelFlow :=
  match s.confirm with
  | none => s
  | some t =>
      let out : FutOutcome Bool :=
        if t.cancelled then FutOutcome.cancelled else FutOutcome.result userResponse
      { ctx := cancel_analysis_done_callback out s.ctx
        confirm := none
        early_term_connected := false }

end OpendropConan

namespace OpendropIFT

/-- A left fold of `min` over a list is a lower bound for the seed and
every element. -/
theorem foldl_min_le (l : List ℚ) (a : ℚ) :
    l.foldl min a ≤ a ∧ ∀ x ∈ l, l.foldl min a ≤ x := by
  induction l generalizing a with
  | nil => simp
  | cons b t ih =>
    obtain ⟨h1, h2⟩ := ih (min a b)
    refine ⟨le_trans h1 (min_le_left a b), ?_⟩
    intro x hx
    rcases List.mem_cons.mp hx with rfl | hx
    · exact le_trans h1 (min_le_right a x)
    · exact h2 x hx

/-- A left fold of `min` over a list is attained: it equals the seed or
some element. -/
theorem foldl_min_mem (l : List ℚ) (a : ℚ) :
    l.foldl min a = a ∨ l.foldl min a ∈ l := by
  induction l generalizing a with
  | nil => simp
  | cons b t ih =>
    rcases ih (min a b) with h | h
    · rcases min_choice a b with hm | hm
      · exact Or.inl (by rw [List.foldl_cons, h, hm])
      · exact Or.inr (by rw [List.foldl_cons, h, hm]; exact List.mem_cons_self b t)
    · exact Or.inr (List.mem_cons_of_mem b h)

/-- A left fold of `max` over a list is an upper bound for the seed and
every element. -/
theorem foldl_max_ge (l : List ℚ) (a : ℚ) :
    a ≤ l.foldl max a ∧ ∀ x ∈ l, x ≤ l.foldl max a := by
  induction l generalizing a with
  | nil => simp
  | cons b t ih =>
    obtain ⟨h1, h2⟩ := ih (max a b)
    refine ⟨le_trans (le_max_left a b) h1, ?_⟩
    intro x hx
    rcases List.mem_cons.mp hx with rfl | hx
    · exact le_trans (le_max_right a x) h1
    · exact h2 x hx

/-- A left fold of `max` over a list is attained: it equals the seed or
some element. -/
theorem foldl_max_mem (l : List ℚ) (a : ℚ) :
    l.foldl max a = a ∨ l.foldl max a ∈ l := by
  induction l generalizing a with
  | nil => simp
  | cons b t ih =>
    rcases ih (max a b) with h | h
    · rcases max_choice a b with hm | hm
      · exact Or.inl (by rw [List.foldl_cons, h, hm])
      · exact Or.inr (by rw [List.foldl_cons, h, hm]; exact List.mem_cons_self b t)
    · exact Or.inr (List.mem_cons_of_mem b h)

/-- C1 counterexample: on the empty collection every analysis is
vacuously done and not cancelled, yet the aggregate status is
NO_ANALYSES, not FINISHED; so "FINISHED iff all done and none cancelled"
fails for the empty set of tracked analyses. -/
theorem fitting_status_finished_iff_fails_on_empty :
    (∀ a ∈ ([] : List Analysis), a.is_done = true ∧ a.is_cancelled = false) ∧
    get_fitting_status [] ≠ Status.FINISHED := by
  refine ⟨?_, ?_⟩
  · intro a ha
    exact absurd ha (List.not_mem_nil a)
  · intro h
    simp [get_fitting_status] at h

/-- C1 (amended): for every non-empty set of tracked analyses, the
aggregate fitting status is FINISHED iff all analyses are done and none
is cancelled. -/
theorem fitting_status_finished_iff (l : List Analysis) (h : l ≠ []) :
    get_fitting_status l = Status.FINISHED ↔
      ∀ a ∈ l, a.is_done = true ∧ a.is_cancelled = false := by
  have hlen : ¬ l.length = 0 := by simpa using h
  simp only [get_fitting_status, if_neg hlen]
  constructor
  · intro hfin
    split at hfin
    · exact absurd hfin (by simp)
    · split at hfin
      · next hall =>
        simp only [List.all_eq_true, Bool.and_eq_true, Bool.not_eq_true'] at hall
        exact hall
      · exact absurd hfin (by simp)
  · intro hall
    have hnc : l.any (fun analysis => analysis.is_cancelled) = false := by
      simp only [List.any_eq_false]
      intro a ha
      simp [(hall a ha).2]
    have hfin : l.all (fun analysis => analysis.is_done && !analysis.is_cancelled) = true := by
      simp only [List.all_eq_true, Bool.and_eq_true, Bool.not_eq_true']
      exact hall
    simp [hnc, hfin]

/-- Witness for the amended C1 at a concrete one-element list. -/
theorem fitting_status_finished_iff_witness :
    ([Analysis.mk true false 0 0] ≠ ([] : List Analysis)) ∧
    (get_fitting_status [Analysis.mk true false 0 0] = Status.FINISHED ↔
      ∀ a ∈ [Analysis.mk true false 0 0], a.is_done = true ∧ a.is_cancelled = false) :=
  ⟨List.cons_ne_nil _ _, fitting_status_finished_iff _ (List.cons_ne_nil _ _)⟩

/-- C2: in any collection of tracked analyses containing a cancelled
analysis, the aggregate fitting status is CANCELLED regardless of the
states of the other analyses. -/
theorem fitting_status_cancelled_of_mem (l : List Analysis) (a : Analysis)
    (ha : a ∈ l) (hc : a.is_cancelled = true) :
    get_fitting_status l = Status.CANCELLED := by
  have hne : l ≠ [] := by
    rintro rfl
    exact absurd ha (List.not_mem_nil a)
  have hany : l.any (fun analysis => analysis.is_cancelled) = true :=
    List.any_eq_true.mpr ⟨a, ha, hc⟩
  simp [get_fitting_status, hne, hany]

/-- Witness for C2 at a concrete two-element list where only the first
analysis is cancelled. -/
theorem fitting_status_cancelled_of_mem_witness :
    Analysis.mk true true 0 0 ∈ [Analysis.mk true true 0 0, Analysis.mk true false 1 1] ∧
    (Analysis.mk true true 0 0).is_cancelled = true ∧
    get_fitting_status [Analysis.mk true true 0 0, Analysis.mk true false 1 1] =
      Status.CANCELLED :=
  ⟨List.mem_cons_self _ _, rfl,
    fitting_status_cancelled_of_mem _ _ (List.mem_cons_self _ _) rfl⟩

/-- C3: on the empty set of tracked analyses the aggregate status is
NO_ANALYSES (in particular neither FITTING nor FINISHED) and the start
time, estimated completion time and completion progress all evaluate to
NaN. -/
theorem empty_analyses_aggregates :
    get_fitting_status [] = Status.NO_ANALYSES ∧
    get_fitting_status [] ≠ Status.FITTING ∧
    get_fitting_status [] ≠ Status.FINISHED ∧
    get_analyses_time_start [] = RFloat.nan ∧
    get_analyses_time_est_complete [] = RFloat.nan ∧
    get_analyses_completion_progress [] = RFloat.nan := by
  refine ⟨rfl, ?_, ?_, rfl, rfl, rfl⟩ <;> intro h <;> simp [get_fitting_status] at h

/-- C5: for every non-empty set of tracked analyses, the aggregate start
time is the minimum of the member start times, the aggregate estimated
completion time is the maximum of the member estimated completion
times, and the completion progress is the number of done analyses
divided by the total number of analyses. -/
theorem aggregate_times_and_progress (l : List Analysis) (h : l ≠ []) :
    (∃ q, get_analyses_time_start l = RFloat.val q ∧
      (∃ a ∈ l, q = a.time_start) ∧ (∀ a ∈ l, q ≤ a.time_start)) ∧
    (∃ q, get_analyses_time_est_complete l = RFloat.val q ∧
      (∃ a ∈ l, q = a.time_est_complete) ∧ (∀ a ∈ l, a.time_est_complete ≤ q)) ∧
    get_analyses_completion_progress l =
      RFloat.val (((l.filter (fun a => a.is_done)).length : ℚ) / (l.length : ℚ)) := by
  match l with
  | [] => exact absurd rfl h
  | a :: rest =>
    refine ⟨?_, ?_, ?_⟩
    · refine ⟨(rest.map (fun x : Analysis => x.time_start)).foldl min a.time_start,
        rfl, ?_, ?_⟩
      · rcases foldl_min_mem (rest.map (fun x : Analysis => x.time_start)) a.time_start
          with hm | hm
        · exact ⟨a, List.mem_cons_self a rest, hm⟩
        · obtain ⟨b, hb, hbeq⟩ := List.mem_map.mp hm
          exact ⟨b, List.mem_cons_of_mem a hb, hbeq.symm⟩
      · intro x hx
        obtain ⟨h1, h2⟩ := foldl_min_le (rest.map (fun x : Analysis => x.time_start)) a.time_start
        rcases List.mem_cons.mp hx with rfl | hx
        · exact h1
        · exact h2 _ (List.mem_map_of_mem _ hx)
    · refine ⟨(rest.map (fun x : Analysis => x.time_est_complete)).foldl max a.time_est_complete,
        rfl, ?_, ?_⟩
      · rcases foldl_max_mem (rest.map (fun x : Analysis => x.time_est_complete))
          a.time_est_complete with hm | hm
        · exact ⟨a, List.mem_cons_self a rest, hm⟩
        · obtain ⟨b, hb, hbeq⟩ := List.mem_map.mp hm
          exact ⟨b, List.mem_cons_of_mem a hb, hbeq.symm⟩
      · intro x hx
        obtain ⟨h1, h2⟩ := foldl_max_ge (rest.map (fun x : Analysis => x.time_est_complete))
          a.time_est_complete
        rcases List.mem_cons.mp hx with rfl | hx
        · exact h1
        · exact h2 _ (List.mem_map_of_mem _ hx)
    · simp [get_analyses_completion_progress]

/-- Witness for C5 at a concrete two-element list. -/
theorem aggregate_times_and_progress_witness :
    ([Analysis.mk true false 3 7, Analysis.mk false false 1 9] ≠ ([] : List Analysis)) ∧
    ((∃ q, get_analyses_time_start [Analysis.mk true false 3 7, Analysis.mk false false 1 9] =
        RFloat.val q ∧
      (∃ a ∈ [Analysis.mk true false 3 7, Analysis.mk false false 1 9], q = a.time_start) ∧
      (∀ a ∈ [Analysis.mk true false 3 7, Analysis.mk false false 1 9], q ≤ a.time_start)) ∧
    (∃ q, get_analyses_time_est_complete
        [Analysis.mk true false 3 7, Analysis.mk false false 1 9] = RFloat.val q ∧
      (∃ a ∈ [Analysis.mk true false 3 7, Analysis.mk false false 1 9],
        q = a.time_est_complete) ∧
      (∀ a ∈ [Analysis.mk true false 3 7, Analysis.mk false false 1 9],
        a.time_est_complete ≤ q)) ∧
    get_analyses_completion_progress [Analysis.mk true false 3 7, Analysis.mk false false 1 9] =
      RFloat.val
        ((([Analysis.mk true false 3 7, Analysis.mk false false 1 9].filter
            (fun a => a.is_done)).length : ℚ) /
          (([Analysis.mk true false 3 7, Analysis.mk false false 1 9] : List Analysis).length : ℚ))) :=
  ⟨List.cons_ne_nil _ _, aggregate_times_and_progress _ (List.cons_ne_nil _ _)⟩

/-- C9: for every non-empty set of tracked analyses the completion
progress is a number between 0 and 1; it is 1 exactly when every
analysis is done and 0 exactly when no analysis is done. -/
theorem completion_progress_bounds (l : List Analysis) (h : l ≠ []) :
    ∃ p : ℚ, get_analyses_completion_progress l = RFloat.val p ∧
      0 ≤ p ∧ p ≤ 1 ∧
      (p = 1 ↔ ∀ a ∈ l, a.is_done = true) ∧
      (p = 0 ↔ ∀ a ∈ l, a.is_done = false) := by
  have hlen : ¬ l.length = 0 := by simpa using h
  have hlpos : 0 < (l.length : ℚ) := by
    have : 0 < l.length := Nat.pos_of_ne_zero hlen
    exact_mod_cast this
  refine ⟨((l.filter (fun a => a.is_done)).length : ℚ) / (l.length : ℚ),
    by simp [get_analyses_completion_progress, h], ?_, ?_, ?_, ?_⟩
  · positivity
  · rw [div_le_one hlpos]
    exact_mod_cast List.length_filter_le _ l
  · rw [div_eq_one_iff_eq (ne_of_gt hlpos)]
    rw [Nat.cast_inj]
    constructor
    · intro heq a ha
      have hfil : l.filter (fun a => a.is_done) = l :=
        (List.filter_sublist l).eq_of_length heq
      have := List.filter_eq_self.mp hfil a ha
      simpa using this
    · intro hall
      have : l.filter (fun a => a.is_done) = l :=
        List.filter_eq_self.mpr (by intro a ha; simpa using hall a ha)
      rw [this]
  · rw [div_eq_zero_iff]
    constructor
    · intro hz a ha
      rcases hz with hz | hz
      · have : (l.filter (fun a => a.is_done)).length = 0 := by exact_mod_cast hz
        have hfil : l.filter (fun a => a.is_done) = [] := List.length_eq_zero.mp this
        have := List.filter_eq_nil_iff.mp hfil a ha
        simpa using this
      · exact absurd hz (ne_of_gt hlpos)
    · intro hall
      left
      have : l.filter (fun a => a.is_done) = [] :=
        List.filter_eq_nil_iff.mpr (by intro a ha; simp [hall a ha])
      simp [this]

/-- `List.lookup` skips a prefix none of whose keys match. -/
theorem lookup_append_keys_ne (l1 l2 : List (Nat × List Nat)) (k : Nat)
    (h : ∀ p ∈ l1, p.1 ≠ k) : (l1 ++ l2).lookup k = l2.lookup k := by
  induction l1 with
  | nil => rfl
  | cons p t ih =>
    have hk : (k == p.1) = false := by
      simp only [beq_eq_false_iff_ne]
      exact fun he => (h p (List.mem_cons_self p t)) he.symm
    simp only [List.cons_append, List.lookup, hk]
    exact ih (fun q hq => h q (List.mem_cons_of_mem p hq))

/-- `List.lookup` fails when no key matches. -/
theorem lookup_eq_none_of_keys_ne (l : List (Nat × List Nat)) (k : Nat)
    (h : ∀ p ∈ l, p.1 ≠ k) : l.lookup k = none := by
  induction l with
  | nil => rfl
  | cons p t ih =>
    have hk : (k == p.1) = false := by
      simp only [beq_eq_false_iff_ne]
      exact fun he => (h p (List.mem_cons_self p t)) he.symm
    simp only [List.lookup, hk]
    exact ih (fun q hq => h q (List.mem_cons_of_mem p hq))

/-- C7: tracking an analysis records exactly the four per-member change
subscriptions as its untrack tasks; untracking then runs exactly those
recorded disconnects, so the live connections return to what they were
before tracking (none of the four remains connected, no other
connection is removed) and the model retains no record of the analysis
(neither in the tracked list nor in the untrack-task map). -/
theorem track_untrack_roundtrip (s : TrackState) (aid : Nat) (h : s.wf_fresh aid) :
    (track_analysis s aid).untrack_tasks.lookup aid =
      some [s.next_conn, s.next_conn + 1, s.next_conn + 2, s.next_conn + 3] ∧
    (∀ c ∈ [s.next_conn, s.next_conn + 1, s.next_conn + 2, s.next_conn + 3],
      c ∈ (track_analysis s aid).connections) ∧
    untrack_analysis (track_analysis s aid) aid = { s with next_conn := s.next_conn + 4 } ∧
    (∀ c ∈ [s.next_conn, s.next_conn + 1, s.next_conn + 2, s.next_conn + 3],
      c ∉ (untrack_analysis (track_analysis s aid) aid).connections) ∧
    aid ∉ (untrack_analysis (track_analysis s aid) aid).tracked ∧
    (untrack_analysis (track_analysis s aid) aid).untrack_tasks.lookup aid = none := by
  obtain ⟨ht, hu, hc⟩ := h
  have hlook : (track_analysis s aid).untrack_tasks.lookup aid =
      some [s.next_conn, s.next_conn + 1, s.next_conn + 2, s.next_conn + 3] := by
    simp only [track_analysis]
    rw [lookup_append_keys_ne _ _ _ hu]
    simp [List.lookup]
  have hfresh : ∀ c ∈ s.connections,
      c ∉ [s.next_conn, s.next_conn + 1, s.next_conn + 2, s.next_conn + 3] := by
    intro c hcmem hmem
    have hlt := hc c hcmem
    simp only [List.mem_cons, List.not_mem_nil, or_false] at hmem
    omega
  have hlook2 : List.lookup aid
      (s.untrack_tasks ++
        [(aid, [s.next_conn, s.next_conn + 1, s.next_conn + 2, s.next_conn + 3])]) =
      some [s.next_conn, s.next_conn + 1, s.next_conn + 2, s.next_conn + 3] := by
    rw [lookup_append_keys_ne _ _ _ hu]
    simp [List.lookup]
  have huntr : untrack_analysis (track_analysis s aid) aid =
      { s with next_conn := s.next_conn + 4 } := by
    simp only [untrack_analysis, track_analysis, hlook2]
    congr 1
    · rw [List.erase_append_right _ ht]
      simp
    · rw [List.filter_append]
      have h1 : s.untrack_tasks.filter (fun p => p.1 != aid) = s.untrack_tasks :=
        List.filter_eq_self.mpr (by
          intro p hp
          simpa using hu p hp)
      rw [h1]
      simp
    · rw [List.filter_append]
      have h1 : s.connections.filter
          (fun c => decide (c ∉ [s.next_conn, s.next_conn + 1, s.next_conn + 2, s.next_conn + 3])) =
          s.connections :=
        List.filter_eq_self.mpr (by
          intro c hcmem
          simpa using hfresh c hcmem)
      have h2 : ([s.next_conn, s.next_conn + 1, s.next_conn + 2, s.next_conn + 3]).filter
          (fun c => decide (c ∉ [s.next_conn, s.next_conn + 1, s.next_conn + 2, s.next_conn + 3])) =
          [] :=
        List.filter_eq_nil_iff.mpr (by
          intro c hcmem
          simp only [decide_eq_true_eq]
          exact fun hn => hn hcmem)
      rw [h1, h2]
      simp
  refine ⟨hlook, ?_, huntr, ?_, ?_, ?_⟩
  · intro c hcmem
    simp only [track_analysis, List.mem_append]
    exact Or.inr hcmem
  · intro c hcmem
    rw [huntr]
    exact fun hmem => hfresh c hmem hcmem
  · rw [huntr]
    exact ht
  · rw [huntr]
    exact lookup_eq_none_of_keys_ne _ _ hu

/-- Witness for C7 at a concrete state: empty model, analysis id 5. -/
theorem track_untrack_roundtrip_witness :
    (TrackState.mk [] [] [] 0).wf_fresh 5 ∧
    ((track_analysis (TrackState.mk [] [] [] 0) 5).untrack_tasks.lookup 5 =
      some [0, 0 + 1, 0 + 2, 0 + 3] ∧
    (∀ c ∈ [0, 0 + 1, 0 + 2, 0 + 3],
      c ∈ (track_analysis (TrackState.mk [] [] [] 0) 5).connections) ∧
    untrack_analysis (track_analysis (TrackState.mk [] [] [] 0) 5) 5 =
      { TrackState.mk [] [] [] 0 with next_conn := 0 + 4 } ∧
    (∀ c ∈ [0, 0 + 1, 0 + 2, 0 + 3],
      c ∉ (untrack_analysis (track_analysis (TrackState.mk [] [] [] 0) 5) 5).connections) ∧
    5 ∉ (untrack_analysis (track_analysis (TrackState.mk [] [] [] 0) 5) 5).tracked ∧
    (untrack_analysis (track_analysis (TrackState.mk [] [] [] 0) 5) 5).untrack_tasks.lookup 5 =
      none) :=
  ⟨⟨by simp, by simp, by simp⟩,
    track_untrack_roundtrip (TrackState.mk [] [] [] 0) 5 ⟨by simp, by simp, by simp⟩⟩

/-- Witness for C9 at a concrete two-element list. -/
theorem completion_progress_bounds_witness :
    ([Analysis.mk true false 0 0, Analysis.mk false false 0 0] ≠ ([] : List Analysis)) ∧
    (∃ p : ℚ, get_analyses_completion_progress
        [Analysis.mk true false 0 0, Analysis.mk false false 0 0] = RFloat.val p ∧
      0 ≤ p ∧ p ≤ 1 ∧
      (p = 1 ↔ ∀ a ∈ [Analysis.mk true false 0 0, Analysis.mk false false 0 0],
        a.is_done = true) ∧
      (p = 0 ↔ ∀ a ∈ [Analysis.mk true false 0 0, Analysis.mk false false 0 0],
        a.is_done = false)) :=
  ⟨List.cons_ne_nil _ _, completion_progress_bounds _ (List.cons_ne_nil _ _)⟩

end OpendropIFT

namespace OpendropConan

/-- C4: saving the current analysis raises an error exactly when no
current analysis exists or the current analysis is not done, and in
either error case the session (in particular its saved flag) is left
unchanged. -/
theorem save_current_analysis_spec (s : Context) :
    (s.save_current_analysis.1.isSome = true ↔
      (s.current = none ∨ ∃ a, s.current = some a ∧ a.done = false)) ∧
    (s.save_current_analysis.1.isSome = true → s.save_current_analysis.2 = s) := by
  obtain ⟨cur, sv, bd⟩ := s
  cases cur with
  | none => simp [Context.save_current_analysis]
  | some a =>
    cases hd : a.done <;>
      simp [Context.save_current_analysis, hd]

/-- Witness for C4 at two concrete sessions: one with no current
analysis (save errs, state unchanged) and one with a done analysis
(save does not err). -/
theorem save_current_analysis_spec_witness :
    ((Context.mk none false false).save_current_analysis.1.isSome = true ↔
      ((Context.mk none false false).current = none ∨
        ∃ a, (Context.mk none false false).current = some a ∧ a.done = false)) ∧
    ((Context.mk none false false).save_current_analysis.1.isSome = true →
      (Context.mk none false false).save_current_analysis.2 = Context.mk none false false) :=
  save_current_analysis_spec (Context.mk none false false)

/-- C8: when a user-confirmation task completes as cancelled — the
cancel confirmation, the discard-results confirmation, or the
save-options dialog — the requested operation is aborted: the session
is unchanged (no analysis cancelled, cleared, or saved) and no error is
raised. -/
theorem cancelled_confirmation_aborts (ctx : Context) :
    cancel_analysis_done_callback FutOutcome.cancelled ctx = ctx ∧
    exit_analysis_do_it (some FutOutcome.cancelled) ctx = ctx ∧
    save_analysis_do_it FutOutcome.cancelled ctx = (none, ctx) :=
  ⟨rfl, rfl, rfl⟩

/-- C10: the invariant "saved implies a current analysis exists" is
preserved by every session operation; `new_analysis` and
`clear_current_analysis` reset the saved flag (clear also removes the
current analysis), `save_current_analysis` sets the saved flag only when
its existence and doneness preconditions passed, and
`cancel_current_analysis` with no current analysis is a no-op. -/
theorem session_operations_preserve_invariant (s : Context) (h : s.inv) :
    s.new_analysis.inv ∧
    s.clear_current_analysis.inv ∧
    s.cancel_current_analysis.inv ∧
    s.save_current_analysis.2.inv ∧
    s.new_analysis.saved = false ∧
    s.clear_current_analysis.saved = false ∧
    s.clear_current_analysis.current = none ∧
    (s.save_current_analysis.2.saved = true →
      s.saved = true ∨ ∃ a, s.current = some a ∧ a.done = true) ∧
    (s.current = none → s.cancel_current_analysis = s) := by
  obtain ⟨cur, sv, bd⟩ := s
  cases cur with
  | none =>
    simp [Context.inv, Context.new_analysis, Context.clear_current_analysis,
      Context.cancel_current_analysis, Context.save_current_analysis,
      Context.set_current] at h ⊢
    cases sv with
    | false => simp
    | true => simp at h
  | some a =>
    cases hd : a.done <;>
      simp [Context.inv, Context.new_analysis, Context.clear_current_analysis,
        Context.cancel_current_analysis, Context.save_current_analysis,
        Context.set_current, hd]

/-- Witness for C10 at the initial session (no current analysis, not
saved). -/
theorem session_operations_preserve_invariant_witness :
    (Context.mk none false false).inv ∧
    ((Context.mk none false false).new_analysis.inv ∧
    (Context.mk none false false).clear_current_analysis.inv ∧
    (Context.mk none false false).cancel_current_analysis.inv ∧
    (Context.mk none false false).save_current_analysis.2.inv ∧
    (Context.mk none false false).new_analysis.saved = false ∧
    (Context.mk none false false).clear_current_analysis.saved = false ∧
    (Context.mk none false false).clear_current_analysis.current = none ∧
    ((Context.mk none false false).save_current_analysis.2.saved = true →
      (Context.mk none false false).saved = true ∨
        ∃ a, (Context.mk none false false).current = some a ∧ a.done = true) ∧
    ((Context.mk none false false).current = none →
      (Context.mk none false false).cancel_current_analysis = Context.mk none false false)) :=
  ⟨fun h => by simp at h,
    session_operations_preserve_invariant (Context.mk none false false)
      (fun h => by simp at h)⟩

/-- C6: if cancellation is requested while the current analysis is still
fitting and the analysis then finishes naturally while the
cancel-confirmation dialog is pending, the pending confirmation task is
cancelled automatically and the analysis itself is not cancelled (it
ends done and not cancelled, the saved flag untouched); and a cancel
request made when no current analysis exists or the current analysis is
already done is a no-op. -/
theorem cancel_request_coalesced (s : CancelFlow) (a : ConanAnalysis)
    (hcur : s.ctx.current = some a) (hnd : a.done = false)
    (hnc : a.cancelled = false) (hbn : s.ctx.bn_done = false) :
    ((analysis_finishes (user_wants_to_cancel_analysis s)).confirm =
        some { cancelled := true } ∧
      ∀ r : Bool,
        (run_confirm_done_callback
            (analysis_finishes (user_wants_to_cancel_analysis s)) r).ctx.current =
          some { done := true, cancelled := false } ∧
        (run_confirm_done_callback
            (analysis_finishes (user_wants_to_cancel_analysis s)) r).ctx.saved =
          s.ctx.saved) ∧
    (∀ t : CancelFlow,
      t.ctx.current_analysis_exists = false ∨ t.ctx.current_analysis_done = true →
        user_wants_to_cancel_analysis t = t) := by
  obtain ⟨ad, ac⟩ := a
  simp only at hnd hnc
  subst hnd
  subst hnc
  have h1 : user_wants_to_cancel_analysis s =
      { s with confirm := some { cancelled := false }, early_term_connected := true } := by
    simp [user_wants_to_cancel_analysis, Context.current_analysis_exists,
      Context.current_analysis_done, hcur, hbn]
  have h2 : analysis_finishes (user_wants_to_cancel_analysis s) =
      { ctx := { s.ctx with
          current := some { done := true, cancelled := false }, bn_done := true }
        confirm := some { cancelled := true }
        early_term_connected := true } := by
    rw [h1]
    simp [analysis_finishes, hcur]
  refine ⟨⟨by rw [h2], ?_⟩, ?_⟩
  · intro r
    rw [h2]
    simp [run_confirm_done_callback, cancel_analysis_done_callback]
  · intro t htuple
    rcases htuple with hne | hdone
    · simp [user_wants_to_cancel_analysis, hne]
    · simp [user_wants_to_cancel_analysis, hdone]

/-- Witness for C6 at a concrete state: a fitting current analysis, no
pending confirmation. -/
theorem cancel_request_coalesced_witness :
    ((CancelFlow.mk (Context.mk (some (ConanAnalysis.mk false false)) false false)
        none false).ctx.current = some (ConanAnalysis.mk false false)) ∧
    ((ConanAnalysis.mk false false).done = false) ∧
    ((ConanAnalysis.mk false false).cancelled = false) ∧
    ((CancelFlow.mk (Context.mk (some (ConanAnalysis.mk false false)) false false)
        none false).ctx.bn_done = false) ∧
    (((analysis_finishes (user_wants_to_cancel_analysis
        (CancelFlow.mk (Context.mk (some (ConanAnalysis.mk false false)) false false)
          none false))).confirm = some { cancelled := true } ∧
      ∀ r : Bool,
        (run_confirm_done_callback
            (analysis_finishes (user_wants_to_cancel_analysis
              (CancelFlow.mk (Context.mk (some (ConanAnalysis.mk false false)) false false)
                none false))) r).ctx.current =
          some { done := true, cancelled := false } ∧
        (run_confirm_done_callback
            (analysis_finishes (user_wants_to_cancel_analysis
              (CancelFlow.mk (Context.mk (some (ConanAnalysis.mk false false)) false false)
                none false))) r).ctx.saved =
          (CancelFlow.mk (Context.mk (some (ConanAnalysis.mk false false)) false false)
            none false).ctx.saved) ∧
    (∀ t : CancelFlow,
      t.ctx.current_analysis_exists = false ∨ t.ctx.current_analysis_done = true →
        user_wants_to_cancel_analysis t = t)) :=
  ⟨rfl, rfl, rfl, rfl,
    cancel_request_coalesced
      (CancelFlow.mk (Context.mk (some (ConanAnalysis.mk false false)) false false) none false)
      (ConanAnalysis.mk false false) rfl rfl rfl rfl⟩

end OpendropConan
